import Mathlib

/-!
Verification development for the mapython cartographic annotation and
topology-repair engine (`mapython/draw.py`, `mapython/utils.py`).

Modelling conventions, used throughout:

* Python floats are modelled as exact rationals (`ℚ`).  Every theorem below
  is evaluated only at inputs whose arithmetic is exact in both models, away
  from comparison boundaries, so the float/rational distinction does not
  affect any branch taken.
* Shapely geometries are modelled concretely for the geometry classes the
  code actually passes around: `find_free_position` is only ever called with
  axis-aligned boxes (`draw.py` lines 330-344, 514-516) and we model the
  accumulated conflict region as a finite union of axis-aligned rectangles.
  Shapely's `intersects` is true for touching geometries (closed-set
  semantics), and `.area` of a degenerate intersection is `0`; both are
  reproduced exactly below.
-/

set_option maxRecDepth 1000000

unseal Rat.add Rat.mul Rat.sub Rat.inv Rat.ofScientific

/-- A planar point, `(x, y)` in canvas units. -/
abbrev Pt : Type := ℚ × ℚ

/-- An axis-aligned rectangle, as produced by `shapely.geometry.box`.
`box(minx, miny, maxx, maxy)`; degenerate (zero width/height) boxes are
allowed, exactly as shapely allows them. -/
structure Rect where
  minx : ℚ
  miny : ℚ
  maxx : ℚ
  maxy : ℚ
deriving DecidableEq, Repr

/-- Translation of a rectangle, the effect of `utils.translate_coords` on the
exterior coordinates of a box followed by `Polygon(...)` (draw.py 579-580). -/
def Rect.translate (r : Rect) (dx dy : ℚ) : Rect :=
  ⟨r.minx + dx, r.miny + dy, r.maxx + dx, r.maxy + dy⟩

/-- Closed-set intersection test between two axis-aligned rectangles: the
semantics of shapely `intersects` (touching boundaries do intersect). -/
def Rect.intersects (r s : Rect) : Bool :=
  r.minx ≤ s.maxx ∧ s.minx ≤ r.maxx ∧ r.miny ≤ s.maxy ∧ s.miny ≤ r.maxy

/-- Intersection rectangle of two rectangles, `none` when they do not meet
(in the closed sense).  The intersection of two touching rectangles is a
degenerate rectangle of zero area, as in shapely. -/
def Rect.inter (r s : Rect) : Option Rect :=
  if r.intersects s then
    some ⟨max r.minx s.minx, max r.miny s.miny, min r.maxx s.maxx, min r.maxy s.maxy⟩
  else none

/-- The accumulated conflict region (`Map.conflict_area`), modelled as the
union of a finite list of rectangles.  The out-of-canvas seed region built
in `Map.__init__` (draw.py 58-63) is representable as four overlapping
frame rectangles; its rounded outer corners (from `buffer(99999)`) lie at
distance ≥ 99999 from the canvas and never meet any geometry evaluated in
the theorems below. -/
abbrev Region : Type := List Rect

/-- Shapely `polygon.intersects(region)` for a box against a rectangle-union
region: true iff it meets (possibly merely touching) some member. -/
def regionIntersects (p : Rect) (rs : Region) : Bool :=
  rs.any (fun r => p.intersects r)

/-- Insertion into an ascending list (helper for the union-area grid). -/
def insertAsc (x : ℚ) : List ℚ → List ℚ
  | [] => [x]
  | y :: ys => if x ≤ y then x :: y :: ys else y :: insertAsc x ys

/-- Ascending insertion sort (kernel-computable). -/
def sortAsc (l : List ℚ) : List ℚ := l.foldr insertAsc []

/-- All x-cuts of a rectangle list (used by the exact union-area grid). -/
def xcuts (rs : List Rect) : List ℚ :=
  sortAsc ((rs.map Rect.minx) ++ (rs.map Rect.maxx)).dedup

/-- All y-cuts of a rectangle list. -/
def ycuts (rs : List Rect) : List ℚ :=
  sortAsc ((rs.map Rect.miny) ++ (rs.map Rect.maxy)).dedup

/-- Whether the open grid cell `(x0,x1)×(y0,y1)` (tested at its midpoint) is
covered by some rectangle of the list. -/
def cellCovered (rs : List Rect) (x0 x1 y0 y1 : ℚ) : Bool :=
  rs.any (fun r =>
    r.minx ≤ (x0 + x1) / 2 ∧ (x0 + x1) / 2 ≤ r.maxx ∧
    r.miny ≤ (y0 + y1) / 2 ∧ (y0 + y1) / 2 ≤ r.maxy)

/-- Exact area of the union of a list of axis-aligned rectangles, via the
coordinate-compression grid: the union is cut into grid cells by all the
rectangle bounds and the covered cells are summed.  This is the value
shapely reports as `.area` of the union. -/
def unionArea (rs : List Rect) : ℚ :=
  let xs := xcuts rs
  let ys := ycuts rs
  ((xs.zip xs.tail).map (fun (x0, x1) =>
    ((ys.zip ys.tail).map (fun (y0, y1) =>
      if cellCovered rs x0 x1 y0 y1 then (x1 - x0) * (y1 - y0) else 0)).sum)).sum

/-- `polygon.intersection(self.conflict_area).area` (draw.py 574, 581) for a
box `p` against the rectangle-union region: the area of the union of the
pieces `p ∩ rᵢ`. -/
def interArea (p : Rect) (rs : Region) : ℚ :=
  unionArea (rs.filterMap (fun r => p.inter r))

/-- The candidate translations tried at each iteration of
`Map.find_free_position`: `shifts = ((step, 0), (0, step), (-step, 0),
(0, -step))` (draw.py 569), in evaluation order. -/
def shifts (step : ℚ) : List (ℚ × ℚ) :=
  [(step, 0), (0, step), (-step, 0), (0, -step)]

/-- One iteration of the shifting loop of `Map.find_free_position`
(draw.py 574-585): starting from the current polygon's intersection area,
each of the four shifted polygons is evaluated in order and adopted exactly
when its intersection area is strictly smaller than the best seen so far.
Returns `((bestdx, bestdy), best_polygon)`. -/
def bestShift (rs : Region) (step : ℚ) (p : Rect) : (ℚ × ℚ) × Rect :=
  (shifts step).foldl
    (fun st d =>
      let shifted := p.translate d.1 d.2
      if interArea shifted rs < interArea st.2 rs then (d, shifted)
      else st)
    ((0, 0), p)

/-- The polygon after one full iteration of the loop body. -/
def shiftOnce (rs : Region) (step : ℚ) (p : Rect) : Rect :=
  (bestShift rs step p).2

/-- The polygon after `k` iterations of the loop body. -/
def shiftIter (rs : Region) (step : ℚ) : Nat → Rect → Rect
  | 0, p => p
  | k + 1, p => shiftIter rs step k (shiftOnce rs step p)

/-- The loop of `Map.find_free_position` (draw.py 570-588): at the start of
each of the `number` iterations, if the current polygon does not intersect
`self.conflict_area` the current `(x, y)` is returned; otherwise the best of
the four shifts is adopted (ties and non-improvements keep the polygon in
place) and the loop continues.  Falling off the loop returns `None`. -/
def find_free_position_aux (rs : Region) (step : ℚ) :
    Nat → Rect → ℚ → ℚ → Option (ℚ × ℚ)
  | 0, _, _, _ => none
  | n + 1, p, x, y =>
      if regionIntersects p rs then
        let b := bestShift rs step p
        find_free_position_aux rs step n b.2 (x + b.1.1) (y + b.1.2)
      else some (x, y)

/-- `Map.find_free_position(polygon, number, step)` (draw.py 552-588).
The position tracked is the polygon's `(minx, miny)` (`polygon.bounds[:2]`,
draw.py 566), updated by the adopted shift at each iteration. -/
def find_free_position (p : Rect) (rs : Region) (number : Nat) (step : ℚ) :
    Option (ℚ × ℚ) :=
  find_free_position_aux rs step number p p.minx p.miny

/-- The canvas frame seeded into `conflict_area` at `Map.__init__`
(draw.py 58-63) for a `width × height` canvas: everything within 99999 of
the canvas and outside it.  Four overlapping rectangles whose union is that
frame (the rounded outer corners of the real `buffer(99999)` differ only at
distance ≥ 99999 from the canvas corners, which no theorem below reaches). -/
def canvasFrame (width height : ℚ) : Region :=
  [ ⟨-99999, -99999, 0, height + 99999⟩
  , ⟨width, -99999, width + 99999, height + 99999⟩
  , ⟨-99999, -99999, width + 99999, 0⟩
  , ⟨-99999, height, width + 99999, height + 99999⟩ ]

/-!
## `Map.conflict_density` (draw.py 590-612)

The accumulated `conflict_area` is dispatched on its shapely `geom_type`:
`MultiPolygon`/`GeometryCollection` carry a `geoms` attribute and are counted
part by part; a plain `Polygon` contributes at most `1`.  We model the two
representations by an inductive mirroring that dispatch; for the point-set
arguments the parts are rectangles.
-/

/-- A stored conflict-area representation: shapely's `geom_type` dispatch in
`Map.conflict_density` distinguishes a single `Polygon` from a multi-part
geometry (`MultiPolygon`/`GeometryCollection`, both taken through the same
branch, draw.py 601-608). -/
inductive ConflictArea where
  | polygon (r : Rect)
  | multiPolygon (rs : List Rect)
deriving DecidableEq, Repr

/-- Whether the disc `Point(x, y).buffer(radius)` (draw.py 599) meets a
rectangle, in the closed sense: the squared distance from the disc centre to
the rectangle is at most `radius²`.  (Shapely's `buffer` is a fine polygonal
approximation of the disc; the theorems below evaluate this test only away
from the boundary of the disc, where approximation and true disc agree.) -/
def discIntersects (x y radius : ℚ) (r : Rect) : Bool :=
  let dx := max (r.minx - x) (max 0 (x - r.maxx))
  let dy := max (r.miny - y) (max 0 (y - r.maxy))
  dx * dx + dy * dy ≤ radius * radius

/-- `Map.conflict_density(x, y, radius)` (draw.py 590-612): for a multi-part
region, the number of parts intersecting the disc; for a single polygon,
`1` if it intersects the disc, else `0`. -/
def conflict_density (ca : ConflictArea) (x y radius : ℚ) : Nat :=
  match ca with
  | .multiPolygon rs => rs.countP (fun r => discIntersects x y radius r)
  | .polygon r => if discIntersects x y radius r then 1 else 0

/-- The set of points covered by a rectangle (closed). -/
def rectSet (r : Rect) : Set Pt :=
  {p | r.minx ≤ p.1 ∧ p.1 ≤ r.maxx ∧ r.miny ≤ p.2 ∧ p.2 ≤ r.maxy}

/-- The set of points covered by a stored conflict-area representation. -/
def conflictAreaSet (ca : ConflictArea) : Set Pt :=
  match ca with
  | .polygon r => rectSet r
  | .multiPolygon rs => ⋃ r ∈ rs, rectSet r

/-!
## Conflict-area growth (draw.py 377-384, 484-487, 521-522)

`Map.conflict_area` is only ever reassigned through `.union`.  For the growth
claim we model the region abstractly as a set of points and each drawing
operation by its effect on `conflict_area`, mirroring the branch structure of
the source.  Geometric quantities that are computed by cairo/shapely oracles
(text extents, the buffered covered shape, the distance test) enter as
parameters; only the branch structure and the union are the code under
check.
-/

/-- `self.conflict_area.union(x)` — shapely set union. -/
def conflictUnion (conflict_area x : Set Pt) : Set Pt := conflict_area ∪ x

/-- Effect of `Map.draw_text` on `conflict_area` (draw.py 317-384):
`densityHigh` is `self.conflict_density(x, y) > 1` (line 319, early return);
`freePos` is the `find_free_position` result (a `TypeError` on `None`
returns early, lines 345-349); `tooFar` is the anchor-distance rejection
(line 362); `unionRaises` is the `ValueError` on an empty buffered geometry
(lines 380-384: the union is skipped, nothing else).  Otherwise the buffered
covered area (including the icon box when an image is drawn) is unioned in. -/
def draw_text_conflict (conflict_area : Set Pt) (densityHigh : Bool)
    (freePos : Option Pt) (tooFar : Bool) (unionRaises : Bool)
    (covered : Set Pt) : Set Pt :=
  if densityHigh then conflict_area
  else
    match freePos with
    | none => conflict_area
    | some _ =>
        if tooFar then conflict_area
        else if unionRaises then conflict_area
        else conflictUnion conflict_area covered

/-- Effect of `Map.draw_text_on_line` on `conflict_area` (draw.py 428-487):
`earlyAbort` collects the early returns (blank text, clipped line empty or
too short, no optimal segment, lines 429-461); `charDrawn` is the
`char_coords is not None` test (line 485); `covered` is
`line.buffer(height + CONFLICT_MARGIN)` (line 486). -/
def draw_text_on_line_conflict (conflict_area : Set Pt) (earlyAbort : Bool)
    (charDrawn : Bool) (covered : Set Pt) : Set Pt :=
  if earlyAbort then conflict_area
  else if charDrawn then conflictUnion conflict_area covered
  else conflict_area

/-- Effect of `Map.draw_image` on `conflict_area` (draw.py 500-522):
early return when `find_free_position` yields `None` (lines 514-518), else the
image box is unioned in (lines 521-522). -/
def draw_image_conflict (conflict_area : Set Pt) (freePos : Option Pt)
    (imageBox : Set Pt) : Set Pt :=
  match freePos with
  | none => conflict_area
  | some _ => conflictUnion conflict_area imageBox

/-!
## `utils.linestring_text_optimal_segment` (utils.py 123-174)

The source first derives, from the coordinate list, the per-segment lengths
(`linestring_lengths`, via `sqrt`) and the per-segment bearings
(`linestring_radians`, via `atan2`).  Since those derived values are
transcendental in general, the optimisation core is embedded as a function
of the two derived sequences `seg_lens` and `rads`; every theorem below is
evaluated only at inputs whose derived values are exact rationals (e.g., a
horizontal path: segment length `|dx|`, bearing `atan2(0, dx) = 0`).

`rad_sums` is a Python `dict`; it is embedded as a list in insertion order.
Python 2's dict iteration order is an unspecified hash order, so every
theorem below is stated at inputs where the final `midmost` selection has a
unique strict minimiser (or a singleton `rad_sums`), making the result
independent of enumeration order.
-/

/-- `utils.iter_pairs` (utils.py 10-23): consecutive pairs of a list. -/
def iter_pairs {α : Type} (l : List α) : List (α × α) := l.zip l.tail

/-- The `rad_diffs` list (utils.py 136-140): `[0]`, then the absolute bearing
difference at each interior node, then `[0]`. -/
def rad_diffs (rads : List ℚ) : List ℚ :=
  [0] ++ (iter_pairs rads).map (fun rr => |rr.2 - rr.1|) ++ [0]

/-- Python slice `l[a:b]`. -/
def pySlice (l : List ℚ) (a b : Nat) : List ℚ := (l.drop a).take (b - a)

/-- The inner end-node scan (utils.py 147-156): starting at `start`, segment
lengths are accumulated; the first index reaching `width * 1.2` fixes
`end = start + i + 1`.  This returns the `i + 1` offset over the dropped
list, `none` when the remaining path is too short. -/
def findEndOffset (target : ℚ) : List ℚ → ℚ → Nat → Option Nat
  | [], _, _ => none
  | s :: rest, cur, i =>
      if cur + s ≥ target then some (i + 1) else findEndOffset target rest (cur + s) (i + 1)

/-- One `start` of the outer loop of utils.py 146-164: find the end node;
if one exists, a strictly smaller bend sum restarts `rad_sums`
(min_rad := rad), an equal one is added to it. -/
def radSumsStep (seg_lens rads : List ℚ) (width : ℚ)
    (st : List ((Nat × Nat) × ℚ) × ℚ) (start : Nat) :
    List ((Nat × Nat) × ℚ) × ℚ :=
  match findEndOffset (width * (12/10)) (seg_lens.drop start) 0 0 with
  | none => st
  | some off =>
      let e := start + off
      let rad := (pySlice (rad_diffs rads) (start + 1) e).sum
      if rad < st.2 then ([((start, e), rad)], rad)
      else if rad = st.2 then (st.1 ++ [((start, e), rad)], st.2)
      else st

/-- The `rad_sums` accumulation (utils.py 141-164): `min_rad` starts at
`max_rad` and every `start` in `range(len(seg_lens))` is processed. -/
def radSumsFold (seg_lens rads : List ℚ) (width max_rad : ℚ) :
    List ((Nat × Nat) × ℚ) × ℚ :=
  (List.range seg_lens.length).foldl (radSumsStep seg_lens rads width)
    ([], max_rad)

/-- One step of the midmost selection loop (utils.py 168-173). -/
def midmostStep (seg_lens : List ℚ) (st : ℚ × Option (Nat × Nat))
    (se : (Nat × Nat) × ℚ) : ℚ × Option (Nat × Nat) :=
  let diff := |(seg_lens.take se.1.1).sum - (seg_lens.drop se.1.2).sum|
  if diff < st.1 then (diff, some se.1) else st

/-- The midmost selection (utils.py 165-174): among the recorded segments,
pick the one minimising `|sum(seg_lens[:start]) - sum(seg_lens[end:])|`;
`mindiff` starts at `sys.maxint` (2^63 - 1 on the original platform). -/
def midmostFold (seg_lens : List ℚ) (sums : List ((Nat × Nat) × ℚ)) :
    Option (Nat × Nat) :=
  (sums.foldl (midmostStep seg_lens) ((2 ^ 63 - 1 : ℚ), none)).2

/-- `utils.linestring_text_optimal_segment(coords, width, max_rad=4.5)`
(utils.py 123-174), as a function of the derived per-segment lengths and
bearings of `coords`. -/
def linestring_text_optimal_segment (seg_lens rads : List ℚ)
    (width max_rad : ℚ) : Option (Nat × Nat) :=
  midmostFold seg_lens (radSumsFold seg_lens rads width max_rad).1

/-!
## `utils.iter_chars_on_line` (utils.py 220-262)

A glyph geometry is a `MultiLineString`, embedded as a list of component
coordinate lists.  The shapely/cairo primitives the loop calls — arc-length
interpolation, the bracketing bearing (`linestring_char_radians`), rotation
of the glyph outline, and minimum distance between geometry collections —
are bundled in `CharPlaceOps` and the loop is embedded over them; the
`axisOps` instance below realises them exactly for geometry lying on the
x-axis.

Two shapely-version facts are modelled and load-bearing:
* `text_geom` starts as `LineString()`; in the shapely 1.x used by the
  repository an empty geometry reports `geom_type == 'GeometryCollection'`
  (its WKT is `GEOMETRYCOLLECTION EMPTY`), so the first glyph is accepted
  through the second disjunct of the test at utils.py 256-259.  The empty
  state is modelled as the empty component list.
* `text_geom.union(rot)` of disjoint line collections collects the
  components; the union is modelled as list concatenation (which has the
  same point set, hence the same minimum distance).

The `last_rad` caching (utils.py 239, 246-249) only memoises `rot_coords`
for an unchanged `rad` and is semantically transparent; it is embedded by
recomputation.
-/

/-- A glyph outline: the components of the character's `MultiLineString`. -/
abbrev Geom : Type := List (List Pt)

/-- `utils.translate_coords` applied to every component (utils.py 251-252). -/
def translateGeom (g : Geom) (dx dy : ℚ) : Geom :=
  g.map (fun c => c.map (fun p => (p.1 + dx, p.2 + dy)))

/-- The geometric primitives used by `iter_chars_on_line`:
`interpolate len` is `line.interpolate(length)`; `charRad len width` is
`utils.linestring_char_radians(line, length, width)` (utils.py 105-121);
`rotate g rad` is `utils.rotate_coords` applied per component
(utils.py 247-248); `dist` is shapely `.distance` between the accumulated
collection and a candidate glyph. -/
structure CharPlaceOps where
  interpolate : ℚ → Pt
  charRad : ℚ → ℚ → ℚ
  rotate : Geom → ℚ → Geom
  dist : Geom → Geom → ℚ

/-- The bounded retry loop for one glyph (utils.py 240-262, `xrange(30)`):
each attempt samples the line at `cur_len`, rotates and translates the
glyph there, advances `cur_len` by `step`, and accepts the first time the
distance to the previously accepted glyphs exceeds `spacing` (or the
accumulated geometry is still the initial empty collection).  Returns the
accepted placement (if any) and the final `cur_len`. -/
def place_char_attempts (G : CharPlaceOps) (char : Geom) (width spacing step : ℚ) :
    Nat → ℚ → Geom → Option Geom × ℚ
  | 0, curLen, _ => (none, curLen)
  | n + 1, curLen, textGeom =>
      let pos := G.interpolate curLen
      let rad := G.charRad curLen width
      let rot := translateGeom (G.rotate char rad) pos.1 pos.2
      if G.dist textGeom rot > spacing ∨ textGeom = [] then (some rot, curLen + step)
      else place_char_attempts G char width spacing step n (curLen + step) textGeom

/-- The per-glyph generator loop of `utils.iter_chars_on_line`
(utils.py 237-262): each glyph first advances `cur_len` by its leading
spacing, then runs the 30-attempt retry; an accepted glyph is yielded and
unioned into `text_geom`, an exhausted budget silently moves on to the next
glyph. -/
def iter_chars_from (G : CharPlaceOps) (step : ℚ) :
    List (Geom × ℚ × ℚ) → ℚ → Geom → List Geom
  | [], _, _ => []
  | (char, width, spacing) :: rest, curLen, textGeom =>
      let res := place_char_attempts G char width spacing step 30 (curLen + spacing) textGeom
      match res.1 with
      | some rot => rot :: iter_chars_from G step rest res.2 (textGeom ++ rot)
      | none => iter_chars_from G step rest res.2 textGeom

/-- `utils.iter_chars_on_line(chars, line, start_len, step=0.85)`
(utils.py 220-262): the cursor starts at `max(start_len, 1)` and
`text_geom` starts as the empty collection. -/
def iter_chars_on_line (G : CharPlaceOps) (chars : List (Geom × ℚ × ℚ))
    (start_len step : ℚ) : List Geom :=
  iter_chars_from G step chars (max start_len 1) []

/-- `line.interpolate(t)` for the horizontal line from `(0,0)` to `(L,0)`:
shapely clamps arc lengths beyond either end. -/
def axisInterp (L t : ℚ) : Pt := (min (max t 0) L, 0)

/-- `utils.linestring_char_radians` on the horizontal left-to-right line:
both bracketing sample points (`±0.5` of arc length, utils.py 117-118) lie
on the axis in increasing-x order, so `atan2(dy, dx) = atan2(0, dx ≥ 0) = 0`
exactly. -/
def axisCharRad (L len width : ℚ) : ℚ :=
  let p1 := axisInterp L (len - 1/2)
  let p2 := axisInterp L (len + width + 1/2)
  if p2.2 - p1.2 = 0 ∧ 0 ≤ p2.1 - p1.1 then 0 else 0

/-- `utils.rotate_coords` by a bearing of `0` radians is the identity (the
cairo rotation matrix at angle 0); the only bearing arising on the
horizontal line is `0`. -/
def axisRotate (g : Geom) (_rad : ℚ) : Geom := g

/-- The x-interval hull of one component lying on the x-axis. -/
def compInterval : List Pt → ℚ × ℚ
  | [] => (0, 0)
  | p :: ps => (ps.foldl (fun m q => min m q.1) p.1, ps.foldl (fun m q => max m q.1) p.1)

/-- Euclidean distance between two intervals on the x-axis. -/
def intervalGap (a b : ℚ × ℚ) : ℚ := max 0 (max (b.1 - a.2) (a.1 - b.2))

/-- Shapely `.distance` between two collections of x-axis polylines: the
minimum pairwise component distance; distance involving an empty geometry
is `0.0` (shapely 1.x behaviour — only reached here when `text_geom` is
still empty, where the acceptance test succeeds through its second
disjunct anyway). -/
def axisDist (g h : Geom) : ℚ :=
  let gaps := (g.map compInterval).flatMap
    (fun a => (h.map compInterval).map (fun b => intervalGap a b))
  match gaps.foldl (fun o q => match o with
    | none => some q
    | some m => some (min m q)) none with
  | none => 0
  | some d => d

/-- The `CharPlaceOps` of the horizontal line from `(0,0)` to `(L,0)`. -/
def axisOps (L : ℚ) : CharPlaceOps :=
  { interpolate := axisInterp L
  , charRad := axisCharRad L
  , rotate := axisRotate
  , dist := axisDist }

/-!
## `utils.close_coastlines` (utils.py 299-396)

The embedding starts from the post-`linemerge` list of lines (the claim
statements are all about merged lines; `shapely.ops.linemerge` itself is an
external collaborator that joins endpoint-contiguous fragments and returns
the input unchanged for the inputs used below).

Geometry is exact over `ℚ`: segment/segment intersection, point-on-segment
tests and Liang-Barsky clipping reproduce the GEOS predicates at rational
coordinates.

`point_radians(p, centroid)` (utils.py 92-103) is `atan2(dy, dx)` normalised
to `(0, 2π]` — note `atan2(0, dx) = 0` for `dx ≥ 0` is mapped to `2π`, the
largest value.  The walk only ever *compares* such angles, so the embedding
provides the exact order of the normalised angles of direction vectors:
angles in `(0, π)` (upper half plane, `dy > 0`) come first, then `π`
(`dy = 0, dx < 0`), then `(π, 2π)` (`dy < 0`), then `2π` (`dy = 0, dx ≥ 0`,
which also covers the zero vector since `atan2(0,0) = 0 ↦ 2π`); within each
open half plane the angle order is the counterclockwise order decided by
the sign of the cross product. -/

/-- Vector difference. -/
def psub (p q : Pt) : Pt := (p.1 - q.1, p.2 - q.2)

/-- 2-D cross product. -/
def cross (u v : Pt) : ℚ := u.1 * v.2 - u.2 * v.1

/-- GEOS point-on-segment predicate (`segment.intersects(Point(p))`) at
rational coordinates: `p` is collinear with `a, b` and within their bounding
box. -/
def segContainsPt (a b p : Pt) : Bool :=
  cross (psub b a) (psub p a) = 0 ∧
  min a.1 b.1 ≤ p.1 ∧ p.1 ≤ max a.1 b.1 ∧
  min a.2 b.2 ≤ p.2 ∧ p.2 ≤ max a.2 b.2

/-- Result of intersecting two segments: empty, one point, or an overlap
segment. -/
inductive SegX where
  | nil
  | pt (p : Pt)
  | seg (a b : Pt)
deriving DecidableEq, Repr

/-- Parameter of a point `p` on the (nondegenerate) segment `a → b`. -/
def segParam (a b p : Pt) : ℚ :=
  if b.1 - a.1 ≠ 0 then (p.1 - a.1) / (b.1 - a.1) else (p.2 - a.2) / (b.2 - a.2)

/-- Exact intersection of segments `[a,b]` and `[c,d]` over `ℚ` (the GEOS
`intersection` of two line segments): the transversal case by the standard
parametric solution, the collinear case as the overlap interval. -/
def segInter (a b c d : Pt) : SegX :=
  let d1 := psub b a
  let d2 := psub d c
  if d1 = (0, 0) ∧ d2 = (0, 0) then (if a = c then .pt a else .nil)
  else if d1 = (0, 0) then (if segContainsPt c d a then .pt a else .nil)
  else if d2 = (0, 0) then (if segContainsPt a b c then .pt c else .nil)
  else
    let den := cross d1 d2
    if den ≠ 0 then
      let t := cross (psub c a) d2 / den
      let u := cross (psub c a) d1 / den
      if 0 ≤ t ∧ t ≤ 1 ∧ 0 ≤ u ∧ u ≤ 1 then
        .pt (a.1 + t * d1.1, a.2 + t * d1.2)
      else .nil
    else
      if cross (psub c a) d1 ≠ 0 then .nil
      else
        let l1 := segParam a b c
        let l2 := segParam a b d
        let lo := max 0 (min l1 l2)
        let hi := min 1 (max l1 l2)
        if lo > hi then .nil
        else if lo = hi then .pt (a.1 + lo * d1.1, a.2 + lo * d1.2)
        else .seg (a.1 + lo * d1.1, a.2 + lo * d1.2) (a.1 + hi * d1.1, a.2 + hi * d1.2)

/-- The four boundary edges of the canvas rectangle, in the order
`blines_init` builds them (utils.py 340-345): top (left to right), right
(top to bottom), bottom (right to left), left (bottom to top).  The same
four segments are the `bbox.exterior` used for the boundary-point count. -/
def bboxEdges (b : Rect) : List (Pt × Pt) :=
  [ ((b.minx, b.maxy), (b.maxx, b.maxy))
  , ((b.maxx, b.maxy), (b.maxx, b.miny))
  , ((b.maxx, b.miny), (b.minx, b.miny))
  , ((b.minx, b.miny), (b.minx, b.maxy)) ]

/-- The consecutive segments of a polyline. -/
def lineSegs (l : List Pt) : List (Pt × Pt) := l.zip l.tail

/-- Distinct-point list (first occurrences, shapely's set semantics for a
point intersection result). -/
def dedupPts (ps : List Pt) : List Pt :=
  ps.foldl (fun acc p => if p ∈ acc then acc else acc ++ [p]) []

/-- `line.intersection(bbox.exterior)` classified for the coastline filter:
whether any 1-dimensional overlap part exists (then the shapely result has
a line component and its `geom_type` cannot be `MultiPoint`), and the
distinct intersection points. -/
def boundaryInter (l : List Pt) (b : Rect) : Bool × List Pt :=
  let xs := (lineSegs l).flatMap
    (fun s => (bboxEdges b).map (fun e => segInter s.1 s.2 e.1 e.2))
  let hasSeg := xs.any (fun x => match x with | .seg _ _ => true | _ => false)
  let pts := dedupPts (xs.filterMap (fun x => match x with | .pt p => some p | _ => none))
  (hasSeg, pts)

/-- The admission test of utils.py 327-332:
`points.geom_type == 'MultiPoint' and len(points) % 2 == 0`.  The result is
a `MultiPoint` exactly when there is no 1-dimensional part and at least two
distinct points. -/
def coastAdmit (l : List Pt) (b : Rect) : Bool :=
  let bi := boundaryInter l b
  !bi.1 ∧ 2 ≤ bi.2.length ∧ bi.2.length % 2 = 0

/-- Liang-Barsky clipping of segment `[a,b]` to the solid rectangle `r`
(`line.intersection(bbox)` piece by piece, exact over `ℚ`). -/
def clipSegRect (a b : Pt) (r : Rect) : SegX :=
  if a = b then
    (if r.minx ≤ a.1 ∧ a.1 ≤ r.maxx ∧ r.miny ≤ a.2 ∧ a.2 ≤ r.maxy then .pt a else .nil)
  else
    let d : Pt := psub b a
    let cs : List (ℚ × ℚ) :=
      [ (-d.1, a.1 - r.minx), (d.1, r.maxx - a.1)
      , (-d.2, a.2 - r.miny), (d.2, r.maxy - a.2) ]
    match cs.foldl
      (fun o c =>
        match o with
        | none => none
        | some (t0, t1) =>
            if c.1 = 0 then (if c.2 < 0 then none else some (t0, t1))
            else if c.1 < 0 then some (max t0 (c.2 / c.1), t1)
            else some (t0, min t1 (c.2 / c.1)))
      (some ((0 : ℚ), (1 : ℚ))) with
    | none => .nil
    | some (t0, t1) =>
        if t0 > t1 then .nil
        else if t0 = t1 then .pt (a.1 + t0 * d.1, a.2 + t0 * d.2)
        else .seg (a.1 + t0 * d.1, a.2 + t0 * d.2) (a.1 + t1 * d.1, a.2 + t1 * d.2)

/-- `line.intersection(bbox)` as the list of maximal polyline pieces inside
the box: clipped sub-segments chained while endpoint-contiguous.  Isolated
touch points (which shapely would report as extra `Point` components) are
dropped; no input appearing in a theorem below produces one. -/
def clipPieces (l : List Pt) (r : Rect) : List (List Pt) :=
  let st := (lineSegs l).foldl
    (fun (st : List (List Pt) × List Pt) s =>
      match clipSegRect s.1 s.2 r with
      | .seg a b =>
          if st.2.getLast? = some a then (st.1, st.2 ++ [b])
          else (st.1 ++ (if 2 ≤ st.2.length then [st.2] else []), [a, b])
      | _ => (st.1 ++ (if 2 ≤ st.2.length then [st.2] else []), []))
    ([], [])
  st.1 ++ (if 2 ≤ st.2.length then [st.2] else [])

/-- `line.is_ring` requires a closed coordinate sequence. -/
def isClosedLine (l : List Pt) : Bool :=
  3 ≤ l.length ∧ l.head? = l.getLast?

/-- GEOS simplicity for a linestring: no two segments meet except adjacent
segments at their one shared vertex, plus the closing contact of a closed
line.  Degenerate (repeated-vertex) segments are excluded; no theorem input
contains repeated consecutive vertices. -/
def isSimpleLine (l : List Pt) : Bool :=
  let ss := lineSegs l
  let n := ss.length
  let closed := l.head? = l.getLast?
  ss.all (fun s => s.1 ≠ s.2) ∧
  (List.range n).all (fun i => (List.range n).all (fun j =>
    if i < j then
      match segInter (ss.getD i ((0,0),(0,0))).1 (ss.getD i ((0,0),(0,0))).2
                     (ss.getD j ((0,0),(0,0))).1 (ss.getD j ((0,0),(0,0))).2 with
      | .nil => true
      | .seg _ _ => false
      | .pt p =>
          if j = i + 1 then p = (ss.getD j ((0,0),(0,0))).1
          else if i = 0 ∧ j = n - 1 ∧ closed then p = (ss.getD 0 ((0,0),(0,0))).1
          else false
    else true))

/-- `line.is_ring` (utils.py 324): shapely requires the line to be both
closed and simple. -/
def isRing (l : List Pt) : Bool := isClosedLine l ∧ isSimpleLine l

/-- Contribution of one merged non-ring line to the closing process
(utils.py 326-336): admitted lines contribute their clipped pieces,
everything else is discarded. -/
def coastContribution (b : Rect) (l : List Pt) : List (List Pt) :=
  if coastAdmit l b then clipPieces l b else []

/-- The first loop of `close_coastlines` (utils.py 321-336): rings are
yielded immediately, non-ring lines contribute their admitted clipped
pieces to the `lines` list of the closing process.  Returns
`(yielded rings, closing-process lines)`. -/
def clipFilter (merged : List (List Pt)) (b : Rect) :
    List (List Pt) × List (List Pt) :=
  merged.foldl
    (fun st line =>
      if isRing line then (st.1 ++ [line], st.2)
      else (st.1, st.2 ++ coastContribution b line))
    ([], [])

/-- Direction vector of `p` as seen from the centroid. -/
def dirOf (cen p : Pt) : Pt := psub p cen

/-- Strict order on normalised `point_radians` angles of two direction
vectors (see the section comment): bucket order `(0,π) < π < (π,2π) < 2π`,
cross-product order within an open half plane. -/
def radLtDir (u v : Pt) : Bool :=
  let bu := if 0 < u.2 then 0 else if u.2 = 0 ∧ u.1 < 0 then 1 else if u.2 < 0 then 2 else 3
  let bv := if 0 < v.2 then 0 else if v.2 = 0 ∧ v.1 < 0 then 1 else if v.2 < 0 then 2 else 3
  bu < bv ∨ (bu = bv ∧ (bu = 0 ∨ bu = 2) ∧ 0 < cross u v)

/-- Non-strict order on normalised `point_radians` angles. -/
def radLeDir (u v : Pt) : Bool := !(radLtDir v u)

/-- Stable descending insertion by closing angle of the first coordinate
(`sorted(lines, key=lambda l: l.angle, reverse=True)`, utils.py 349-351;
Python's sort is stable). -/
def insertDescLine (cen : Pt) (x : List Pt) : List (List Pt) → List (List Pt)
  | [] => [x]
  | y :: ys =>
      if radLtDir (dirOf cen (x.headD (0,0))) (dirOf cen (y.headD (0,0)))
      then y :: insertDescLine cen x ys
      else x :: y :: ys

/-- The angular sort of the closing-process lines. -/
def sortLinesDesc (cen : Pt) : List (List Pt) → List (List Pt)
  | [] => []
  | x :: xs => insertDescLine cen x (sortLinesDesc cen xs)

/-- State of the boundary walk (utils.py 355-391): the ring coordinates
accumulated so far, the pending end (`prevend`), the rotatable deque of
boundary edges, and the remaining coastlines. -/
structure WalkSt where
  area : List Pt
  prevend : Pt
  blines : List (Pt × Pt)
  lines : List (List Pt)
deriving DecidableEq, Repr

/-- `bline.intersects(point)`. -/
def segHasPt (e : Pt × Pt) (p : Pt) : Bool := segContainsPt e.1 e.2 p

/-- One iteration of the inner `while True` of `close_coastlines`
(utils.py 367-391): compute `prevrad`; pick the first deque edge containing
`prevend` (Python's `for` leaves the **last** edge bound when none matches);
splice in the first remaining coastline whose last coordinate lies on that
edge at an angle not beyond `prevrad`; then — with the *pre-splice*
`prevrad` and edge — finish the ring if the edge contains the ring's `end`
at `endrad ≤ prevrad`; otherwise, when nothing was spliced, append the
edge's far corner and rotate the deque left.  `.inl` carries the finished
ring and the remaining coastlines, `.inr` the next state. -/
def walkStep (cen end_ : Pt) (st : WalkSt) : (List Pt × List (List Pt)) ⊕ WalkSt :=
  let prevDir := dirOf cen st.prevend
  let bline := (st.blines.find? (fun e => segHasPt e st.prevend)).getD
    (st.blines.getLastD ((0,0),(0,0)))
  let hit := st.lines.findIdx? (fun ln =>
    segHasPt bline (ln.getLastD (0,0)) ∧ radLeDir (dirOf cen (ln.getLastD (0,0))) prevDir)
  let st1 : WalkSt :=
    match hit with
    | some i =>
        let ln := st.lines.getD i []
        { st with
            area := st.area ++ ln.reverse,
            prevend := ln.headD (0,0),
            lines := st.lines.eraseIdx i }
    | none => st
  if segHasPt bline end_ ∧ radLeDir (dirOf cen end_) prevDir then
    .inl (st1.area, st1.lines)
  else if hit.isSome then
    .inr st1
  else
    .inr { st1 with
             area := st1.area ++ [bline.2],
             prevend := bline.2,
             blines := st.blines.drop 1 ++ st.blines.take 1 }

/-- The inner `while True` loop, fuelled: `none` means the fuel ran out with
the ring still unfinished (the source loop has **no** bound of its own). -/
def walkLoop (cen end_ : Pt) : Nat → WalkSt → Option (List Pt × List (List Pt))
  | 0, _ => none
  | n + 1, st =>
      match walkStep cen end_ st with
      | .inl out => some out
      | .inr st' => walkLoop cen end_ n st'

/-- The outer `while lines` loop (utils.py 355-391): pop the last (smallest
closing angle) line, seed the ring with its reversed coordinates, walk; on
success continue with the remaining lines.  `none` when any fuel runs out. -/
def outerWalk (cen : Pt) (blines0 : List (Pt × Pt)) (g : Nat) :
    Nat → List (List Pt) → Option (List (List Pt))
  | _, [] => some []
  | 0, _ :: _ => none
  | f + 1, x :: xs =>
      let cur := (x :: xs).getLastD []
      let rest := (x :: xs).dropLast
      let end_ := cur.getLastD (0, 0)
      let st0 : WalkSt :=
        { area := cur.reverse, prevend := cur.headD (0, 0)
        , blines := blines0, lines := rest }
      match walkLoop cen end_ g st0 with
      | none => none
      | some (ring, remaining) =>
          match outerWalk cen blines0 g f remaining with
          | none => none
          | some rings => some (ring :: rings)

/-- `Polygon(area).exterior` (utils.py 392-395): the ring closed up by
repeating the first coordinate when needed. -/
def closeRing (l : List Pt) : List Pt :=
  if l.headD (0,0) = l.getLastD (0,0) then l else l ++ [l.headD (0,0)]

/-- `utils.close_coastlines(lines, bbox)` from the post-`linemerge` line
list (utils.py 316-396), fuelled: `some rings` when every boundary walk
finishes within the fuel, `none` when some walk is still running — for
every fuel — i.e. the source loops forever.  The already-closed rings are
yielded first, then the stitched rings in pop order. -/
def close_coastlines (merged : List (List Pt)) (bbox : Rect)
    (outerFuel innerFuel : Nat) : Option (List (List Pt)) :=
  let rs := clipFilter merged bbox
  let cen : Pt := ((bbox.minx + bbox.maxx) / 2, (bbox.miny + bbox.maxy) / 2)
  (outerWalk cen (bboxEdges bbox) innerFuel outerFuel (sortLinesDesc cen rs.2)).map
    (fun areas => rs.1 ++ areas.map closeRing)

/-!
## Concrete instances used by the theorems
-/

/-- The reserved square seeded in `tests/test_map.py::test_conflicts`
(`box(0, 0, 20, 20)`). -/
def testSquare : Rect := ⟨0, 0, 20, 20⟩

/-- The `box(10, 10, 50, 30)` candidate of the test scenario. -/
def testCand : Rect := ⟨10, 10, 50, 30⟩

/-- The seeded conflict region of the test scenario: the out-of-canvas frame
(the canvas of the test map is 800 units wide; the exact height is
irrelevant — the frame never meets the candidates — and is fixed at 600)
together with the reserved square. -/
def testRegion : Region := canvasFrame 800 600 ++ [testSquare]

/-- A region consisting of one 10×10 square at the origin. -/
def oneSquare : Region := [⟨0, 0, 10, 10⟩]

/-- A candidate overlapping `oneSquare` by a 1×10 strip; one `step = 4`
move in `+x` carries it strictly clear of the square. -/
def lateCand : Rect := ⟨9, 0, 12, 10⟩

/-- The canvas rectangle of the coastline instances. -/
def coastBox : Rect := ⟨0, 0, 10, 10⟩

/-- A merged coastline fragment inside `coastBox` whose two endpoints lie on
the right canvas edge *below* the horizontal through the centroid, so both
normalised closing angles lie in `(3π/2, 2π)` … with the end's angle above
the start's.  The boundary walk never satisfies its angular stop condition
on this fragment and loops forever. -/
def coastFrag : List Pt := [(10, 2), (8, 3), (10, 4)]

/-- A closed but self-crossing (figure-eight) line inside `coastBox`:
`is_closed` holds, `is_ring` does not. -/
def figureEight : List Pt := [(1, 1), (3, 3), (1, 3), (3, 1), (1, 1)]

/-- A closed simple square ring inside `coastBox`. -/
def squareRing : List Pt := [(1, 1), (4, 1), (4, 4), (1, 4), (1, 1)]

/-- A line crossing the canvas boundary exactly once (odd count). -/
def oddCrossLine : List Pt := [(5, 5), (15, 5)]

/-- The centroid of `coastBox`. -/
def coastCen : Pt := (5, 5)

/-- The four boundary edges of `coastBox` in `blines_init` order. -/
def eT : Pt × Pt := ((0, 10), (10, 10))

/-- Right edge of `coastBox`. -/
def eR : Pt × Pt := ((10, 10), (10, 0))

/-- Bottom edge of `coastBox`. -/
def eB : Pt × Pt := ((10, 0), (0, 0))

/-- Left edge of `coastBox`. -/
def eL : Pt × Pt := ((0, 0), (0, 10))

/-- The control states (pending end, deque) visited by the boundary walk on
`coastFrag`: after two steps the walk enters the 4-state corner cycle
`c₃ → c₄ → c₅ → c₆ → c₃`. -/
def coastCtrl : List (Pt × List (Pt × Pt)) :=
  [ ((10, 2), [eT, eR, eB, eL])
  , ((10, 0), [eR, eB, eL, eT])
  , ((10, 0), [eB, eL, eT, eR])
  , ((0, 0), [eL, eT, eR, eB])
  , ((0, 10), [eT, eR, eB, eL])
  , ((10, 10), [eR, eB, eL, eT]) ]

/-- Invariant of the diverging walk on `coastFrag`: no coastlines remain to
splice and the control state lies on the visited cycle. -/
def coastInv (st : WalkSt) : Bool :=
  st.lines = [] ∧ (st.prevend, st.blines) ∈ coastCtrl

/-- A single glyph outline: one unit-length stroke on the x-axis. -/
def charSeg : Geom := [[(0, 0), (1, 0)]]

/-- Three glyphs for the 100-unit horizontal line: leading spacings
`0.8`, `100`, `0.8` (`generate_char_geoms` produces large spacings for runs
of spaces, utils.py 198-200).  The second glyph's spacing pushes its cursor
past the end of the line, where the interpolated position is pinned to the
endpoint and its distance (97.2) to the first glyph never exceeds its
spacing (100): its 30 attempts all fail. -/
def threeChars : List (Geom × ℚ × ℚ) :=
  [(charSeg, 1, 4/5), (charSeg, 1, 100), (charSeg, 1, 4/5)]

/-!
# Theorems

Helper lemmas first, then one named theorem per claim (witnesses and
counterexamples alongside).
-/

theorem Rect.translate_zero (p : Rect) : p.translate 0 0 = p := by
  cases p; simp [Rect.translate]

theorem Rect.translate_add (p : Rect) (a b c d : ℚ) :
    (p.translate a b).translate c d = p.translate (a + c) (b + d) := by
  cases p; simp [Rect.translate, add_assoc]

theorem bestShift_snd (rs : Region) (step : ℚ) (p : Rect) :
    (bestShift rs step p).2 =
      p.translate (bestShift rs step p).1.1 (bestShift rs step p).1.2 := by
  simp only [bestShift, shifts, List.foldl]
  split_ifs <;> simp [Rect.translate_zero]

theorem Rect.eq_translate_coords (p q : Rect) (a b : ℚ)
    (h : q = p.translate a b) :
    q = p.translate (q.minx - p.minx) (q.miny - p.miny) := by
  subst h
  cases p
  simp only [Rect.translate, Rect.mk.injEq]
  refine ⟨by ring, by ring, by ring, by ring⟩

theorem shiftOnce_translate (rs : Region) (step : ℚ) (p : Rect) :
    shiftOnce rs step p =
      p.translate ((shiftOnce rs step p).minx - p.minx)
        ((shiftOnce rs step p).miny - p.miny) :=
  Rect.eq_translate_coords p _ _ _ (bestShift_snd rs step p)

theorem shiftIter_is_translate (rs : Region) (step : ℚ) :
    ∀ (k : Nat) (p : Rect), ∃ a b, shiftIter rs step k p = p.translate a b := by
  intro k
  induction k with
  | zero => intro p; exact ⟨0, 0, (Rect.translate_zero p).symm⟩
  | succ k ih =>
    intro p
    obtain ⟨a, b, h⟩ := ih (shiftOnce rs step p)
    obtain ⟨a0, b0, h0⟩ :
        ∃ a0 b0, shiftOnce rs step p = Rect.translate p a0 b0 :=
      ⟨_, _, shiftOnce_translate rs step p⟩
    refine ⟨a0 + a, b0 + b, ?_⟩
    show shiftIter rs step k (shiftOnce rs step p) = _
    rw [h, h0, Rect.translate_add]

theorem shiftIter_translate_coords (rs : Region) (step : ℚ) (k : Nat) (p : Rect) :
    shiftIter rs step k p =
      p.translate ((shiftIter rs step k p).minx - p.minx)
        ((shiftIter rs step k p).miny - p.miny) := by
  obtain ⟨a, b, h⟩ := shiftIter_is_translate rs step k p
  exact Rect.eq_translate_coords p _ a b h

theorem ffp_aux_none_iff (rs : Region) (step : ℚ) :
    ∀ (n : Nat) (p : Rect) (x y : ℚ),
      find_free_position_aux rs step n p x y = none ↔
        ∀ k, k < n → regionIntersects (shiftIter rs step k p) rs = true := by
  intro n
  induction n with
  | zero =>
    intro p x y
    constructor
    · intro _ k hk; exact absurd hk (Nat.not_lt_zero k)
    · intro _; rfl
  | succ n ih =>
    intro p x y
    simp only [find_free_position_aux]
    by_cases h : regionIntersects p rs = true
    · rw [if_pos h, ih]
      constructor
      · intro hall k hk
        match k with
        | 0 => exact h
        | k + 1 => exact hall k (by omega)
      · intro hall k hk
        exact hall (k + 1) (by omega)
    · rw [if_neg h]
      constructor
      · intro hc; exact absurd hc (by simp)
      · intro hall
        exact absurd (hall 0 (Nat.succ_pos n)) h

theorem ffp_aux_some (rs : Region) (step : ℚ) :
    ∀ (n : Nat) (p : Rect) (a b : ℚ),
      find_free_position_aux rs step n p p.minx p.miny = some (a, b) →
      ∃ k, k < n ∧ regionIntersects (shiftIter rs step k p) rs = false ∧
        (∀ j, j < k → regionIntersects (shiftIter rs step j p) rs = true) ∧
        a = (shiftIter rs step k p).minx ∧ b = (shiftIter rs step k p).miny := by
  intro n
  induction n with
  | zero =>
    intro p a b h
    exact absurd h (by simp [find_free_position_aux])
  | succ n ih =>
    intro p a b h
    simp only [find_free_position_aux] at h
    by_cases hi : regionIntersects p rs = true
    · rw [if_pos hi] at h
      have hx : p.minx + (bestShift rs step p).1.1 = (shiftOnce rs step p).minx := by
        show _ = ((bestShift rs step p).2).minx
        rw [bestShift_snd rs step p]
        rfl
      have hy : p.miny + (bestShift rs step p).1.2 = (shiftOnce rs step p).miny := by
        show _ = ((bestShift rs step p).2).miny
        rw [bestShift_snd rs step p]
        rfl
      rw [hx, hy] at h
      obtain ⟨k, hk, h1, h2, h3, h4⟩ := ih (shiftOnce rs step p) a b h
      refine ⟨k + 1, by omega, h1, ?_, h3, h4⟩
      intro j hj
      match j with
      | 0 => exact hi
      | j + 1 => exact h2 j (by omega)
    · rw [if_neg hi] at h
      have hab : p.minx = a ∧ p.miny = b := by
        have := Option.some.inj h
        exact ⟨congrArg Prod.fst this, congrArg Prod.snd this⟩
      refine ⟨0, Nat.succ_pos n, ?_, ?_, ?_, ?_⟩
      · exact Bool.not_eq_true _ ▸ (Bool.eq_false_iff.mpr hi)
      · intro j hj; exact absurd hj (Nat.not_lt_zero j)
      · exact hab.1.symm
      · exact hab.2.symm

/-- C2: the concrete scenario of the spec and of
`tests/test_map.py::test_conflicts` (lines 59-73), evaluated on the code of
`Map.find_free_position`.  With the region seeded with the reserved
20×20 square (plus the out-of-canvas frame), the 40×20 candidate at
`(10, 10)` with `step=1` returns `None` for `number=10` (the test expects
`(10, 20)`): the loop walks `+x` into mere contact with the square and the
touching candidate still `intersects` the region.  `number=5` returns
`None` (as the test expects), and the degenerate `box(30, 30, 50, 30)` with
`number=0` returns `None` (the test expects `(30, 30)`): the free-position
check sits inside the loop, which runs zero times.  The code contradicts
its own test on the first and third cases. -/
theorem find_free_position_test_scenario :
    find_free_position testCand testRegion 10 1 = none ∧
    find_free_position testCand testRegion 5 1 = none ∧
    find_free_position ⟨30, 30, 50, 30⟩ testRegion 0 4 = none :=
  ⟨by decide, by decide, rfl⟩

/-- C3 counterexample: a candidate freed exactly by the final allowed move
is not returned.  `lateCand` overlaps the square by a 1×10 strip; with
`number = 1` the single iteration adopts the `+4` x-shift, which carries the
candidate strictly clear of the region — yet the call returns `None`,
because no intersection check follows the final move. -/
theorem find_free_position_final_move_counterexample :
    find_free_position lateCand oneSquare 1 4 = none ∧
    shiftIter oneSquare 4 1 lateCand = Rect.translate lateCand 4 0 ∧
    regionIntersects (Rect.translate lateCand 4 0) oneSquare = false :=
  ⟨by decide, by decide, by decide⟩

/-- C3 (amended): `find_free_position` returns the current position at the
first of its `number` start-of-iteration checks — i.e. after at most
`number - 1` moves — at which the candidate no longer intersects the
region, and returns `None` exactly when the candidate intersects at every
one of those checks; a candidate freed only by the final move is not
detected. -/
theorem find_free_position_first_check (p : Rect) (rs : Region) (n : Nat) (step : ℚ) :
    (find_free_position p rs n step = none ↔
      ∀ k, k < n → regionIntersects (shiftIter rs step k p) rs = true) ∧
    (∀ a b, find_free_position p rs n step = some (a, b) →
      ∃ k, k < n ∧ regionIntersects (shiftIter rs step k p) rs = false ∧
        (∀ j, j < k → regionIntersects (shiftIter rs step j p) rs = true) ∧
        a = (shiftIter rs step k p).minx ∧ b = (shiftIter rs step k p).miny) :=
  ⟨ffp_aux_none_iff rs step n p p.minx p.miny,
   fun a b h => ffp_aux_some rs step n p a b h⟩

/-- Witness for C3 (amended), at `lateCand` with `number = 2`, where the
call succeeds with `(13, 0)` at the second check. -/
theorem find_free_position_first_check_witness :
    ∃ k, k < 2 ∧ regionIntersects (shiftIter oneSquare 4 k lateCand) oneSquare = false ∧
      (∀ j, j < k → regionIntersects (shiftIter oneSquare 4 j lateCand) oneSquare = true) ∧
      (13 : ℚ) = (shiftIter oneSquare 4 k lateCand).minx ∧
      (0 : ℚ) = (shiftIter oneSquare 4 k lateCand).miny :=
  (find_free_position_first_check lateCand oneSquare 2 4).2 13 0 (by decide)

/-- C7: when `Map.find_free_position` returns a position, the candidate
translated to that position does not intersect the accumulated conflict
region, and the position is reached within at most `number` shift
iterations of the loop body. -/
theorem find_free_position_result_free (p : Rect) (rs : Region) (n : Nat)
    (step a b : ℚ) (h : find_free_position p rs n step = some (a, b)) :
    regionIntersects (p.translate (a - p.minx) (b - p.miny)) rs = false ∧
    ∃ k, k ≤ n ∧ shiftIter rs step k p = p.translate (a - p.minx) (b - p.miny) := by
  obtain ⟨k, hk, hfree, _, ha, hb⟩ := ffp_aux_some rs step n p a b h
  have ht : shiftIter rs step k p = p.translate (a - p.minx) (b - p.miny) := by
    rw [ha, hb]
    exact shiftIter_translate_coords rs step k p
  constructor
  · rw [← ht]; exact hfree
  · exact ⟨k, Nat.le_of_lt hk, ht⟩

/-- Witness for C7 at a successful concrete call
(`find_free_position lateCand oneSquare 2 4 = some (13, 0)`). -/
theorem find_free_position_result_free_witness :
    regionIntersects
      (Rect.translate lateCand (13 - lateCand.minx) (0 - lateCand.miny)) oneSquare = false ∧
    ∃ k, k ≤ 2 ∧ shiftIter oneSquare 4 k lateCand =
      Rect.translate lateCand (13 - lateCand.minx) (0 - lateCand.miny) :=
  find_free_position_result_free lateCand oneSquare 2 4 13 0 (by decide)

/-- C6 counterexample: two representations of the *same point set* — the
rectangle `[0,2]×[0,1]` stored as a single `Polygon`, and as a two-part
multi-geometry split at `x = 1` — on which `conflict_density` disagrees:
a disc centred at `(1, 1/2)` of radius `1/4` meets both parts, so the
multi-part representation counts `2` while the single polygon counts `1`. -/
theorem conflict_density_repr_counterexample :
    conflictAreaSet (.polygon ⟨0, 0, 2, 1⟩) =
      conflictAreaSet (.multiPolygon [⟨0, 0, 1, 1⟩, ⟨1, 0, 2, 1⟩]) ∧
    conflict_density (.polygon ⟨0, 0, 2, 1⟩) 1 (1/2) (1/4) = 1 ∧
    conflict_density (.multiPolygon [⟨0, 0, 1, 1⟩, ⟨1, 0, 2, 1⟩]) 1 (1/2) (1/4) = 2 := by
  refine ⟨?_, by decide, by decide⟩
  ext p
  simp only [conflictAreaSet, rectSet, Set.mem_setOf_eq, Set.mem_iUnion,
    List.mem_cons, List.not_mem_nil, or_false, exists_prop]
  constructor
  · rintro ⟨h0, h2, hy0, hy1⟩
    rcases le_total p.1 1 with hx | hx
    · exact ⟨_, Or.inl rfl, h0, hx, hy0, hy1⟩
    · exact ⟨_, Or.inr rfl, hx, h2, hy0, hy1⟩
  · rintro ⟨r, hr | hr, hm⟩ <;> subst hr
    · exact ⟨hm.1, le_trans hm.2.1 (by norm_num), hm.2.2.1, hm.2.2.2⟩
    · exact ⟨le_trans (by norm_num) hm.1, hm.2.1, hm.2.2.1, hm.2.2.2⟩

/-- C6 (amended): `conflict_density` counts, for a multi-part region, the
stored parts meeting the disc (and a single polygon as at most one), so it
is invariant under permutation of the stored parts — but not under
re-partitioning the same covered point set, as the counterexample shows. -/
theorem conflict_density_perm_invariant (rs₁ rs₂ : List Rect)
    (h : rs₁.Perm rs₂) (x y radius : ℚ) :
    conflict_density (.multiPolygon rs₁) x y radius =
      conflict_density (.multiPolygon rs₂) x y radius := by
  simp only [conflict_density]
  exact h.countP_eq _

/-- Witness for C6 (amended): swapping the two parts of the counterexample's
multi-part region leaves the count unchanged. -/
theorem conflict_density_perm_invariant_witness :
    conflict_density (.multiPolygon [⟨0, 0, 1, 1⟩, ⟨1, 0, 2, 1⟩]) 1 (1/2) (1/4) =
      conflict_density (.multiPolygon [⟨1, 0, 2, 1⟩, ⟨0, 0, 1, 1⟩]) 1 (1/2) (1/4) :=
  conflict_density_perm_invariant _ _ (List.Perm.swap _ _ _) 1 (1/2) (1/4)

/-- C8: every operation of a render pass that touches the accumulated
conflict region — `draw_text`, `draw_text_on_line`, `draw_image`, and the
underlying `conflict_area.union` — only grows it: on every branch of each
operation the prior region is a subset of the resulting region. -/
theorem conflict_area_monotone (ca covered imageBox : Set Pt)
    (densityHigh tooFar unionRaises earlyAbort charDrawn : Bool)
    (freePos freePosImg : Option Pt) :
    ca ⊆ draw_text_conflict ca densityHigh freePos tooFar unionRaises covered ∧
    ca ⊆ draw_text_on_line_conflict ca earlyAbort charDrawn covered ∧
    ca ⊆ draw_image_conflict ca freePosImg imageBox ∧
    ca ⊆ conflictUnion ca covered := by
  refine ⟨?_, ?_, ?_, Set.subset_union_left⟩
  · unfold draw_text_conflict conflictUnion
    cases freePos <;> split_ifs <;>
      first | exact subset_rfl | exact Set.subset_union_left
  · unfold draw_text_on_line_conflict conflictUnion
    split_ifs <;> first | exact subset_rfl | exact Set.subset_union_left
  · unfold draw_image_conflict conflictUnion
    cases freePosImg
    · exact subset_rfl
    · exact Set.subset_union_left

theorem sum_nonneg_of_mem (l : List ℚ) (h : ∀ s ∈ l, 0 ≤ s) : 0 ≤ l.sum := by
  induction l with
  | nil => simp
  | cons x xs ih =>
    simp only [List.sum_cons]
    have hx := h x (by simp)
    have hxs := ih (fun s hs => h s (by simp [hs]))
    linarith

theorem sum_drop_le_sum (l : List ℚ) (h : ∀ s ∈ l, 0 ≤ s) :
    ∀ k, (l.drop k).sum ≤ l.sum := by
  induction l with
  | nil => intro k; simp
  | cons x xs ih =>
    intro k
    match k with
    | 0 => exact le_refl _
    | k + 1 =>
      simp only [List.drop_succ_cons, List.sum_cons]
      have h1 := ih (fun s hs => h s (by simp [hs])) k
      have hx := h x (by simp)
      linarith

theorem findEndOffset_eq_length (target : ℚ) :
    ∀ (l : List ℚ) (cur : ℚ) (i : Nat), l ≠ [] → (∀ s ∈ l, 0 ≤ s) →
      cur + l.dropLast.sum < target → target ≤ cur + l.sum →
      findEndOffset target l cur i = some (i + l.length) := by
  intro l
  induction l with
  | nil => intro cur i hne _ _ _; exact absurd rfl hne
  | cons s rest ih =>
    intro cur i _ hpos hshort hreach
    cases rest with
    | nil =>
      have hr : target ≤ cur + s := by
        simpa using hreach
      simp only [findEndOffset, List.length_cons, List.length_nil]
      rw [if_pos (by linarith)]
    | cons r rest' =>
      have hd0 : 0 ≤ ((r :: rest').dropLast).sum := by
        refine sum_nonneg_of_mem _ (fun a ha => hpos a ?_)
        exact List.mem_cons_of_mem s ((r :: rest').dropLast_sublist.subset ha)
      have hs' : cur + (s + ((r :: rest').dropLast).sum) < target := by
        simpa [List.sum_cons] using hshort
      have hlt : cur + s < target := by linarith
      rw [show findEndOffset target (s :: r :: rest') cur i =
            (if cur + s ≥ target then some (i + 1)
             else findEndOffset target (r :: rest') (cur + s) (i + 1)) from rfl]
      rw [if_neg (by linarith)]
      have hrec := ih (cur + s) (i + 1) (by simp)
        (fun a ha => hpos a (by simp [ha]))
        (by linarith)
        (by
          have hr := hreach
          simp only [List.sum_cons] at hr
          simp only [List.sum_cons]
          linarith)
      rw [hrec]
      congr 1
      simp [List.length_cons]
      omega

theorem findEndOffset_short (target : ℚ) :
    ∀ (l : List ℚ) (cur : ℚ) (i : Nat), (∀ s ∈ l, 0 ≤ s) →
      cur + l.sum < target → findEndOffset target l cur i = none := by
  intro l
  induction l with
  | nil => intro cur i _ _; rfl
  | cons s rest ih =>
    intro cur i hpos hsum
    have h0 : 0 ≤ rest.sum :=
      sum_nonneg_of_mem _ (fun a ha => hpos a (by simp [ha]))
    have hlt : cur + s < target := by
      have hr := hsum
      simp only [List.sum_cons] at hr
      linarith
    rw [show findEndOffset target (s :: rest) cur i =
          (if cur + s ≥ target then some (i + 1)
           else findEndOffset target rest (cur + s) (i + 1)) from rfl]
    rw [if_neg (by linarith)]
    exact ih (cur + s) (i + 1) (fun a ha => hpos a (by simp [ha]))
      (by have hr := hsum; simp only [List.sum_cons] at hr; linarith)

theorem rad_diffs_all_zero (rads : List ℚ)
    (h : ∀ rr ∈ iter_pairs rads, rr.1 = rr.2) :
    ∀ x ∈ rad_diffs rads, x = 0 := by
  intro x hx
  simp only [rad_diffs, List.mem_append, List.mem_map, List.mem_cons,
    List.not_mem_nil, or_false, List.mem_singleton] at hx
  rcases hx with (hx | ⟨rr, hrr, hval⟩) | hx
  · exact hx
  · rw [← hval, h rr hrr, sub_self, abs_zero]
  · exact hx

theorem slice_sum_zero (l : List ℚ) (h : ∀ x ∈ l, x = 0) (a b : Nat) :
    (pySlice l a b).sum = 0 := by
  refine List.sum_eq_zero (fun x hx => ?_)
  exact h x (List.drop_subset a l (List.take_subset _ _ hx))

theorem foldl_id_of_step {α β : Type} (f : β → α → β) (l : List α) (s : β)
    (h : ∀ a ∈ l, ∀ st, f st a = st) : l.foldl f s = s := by
  induction l generalizing s with
  | nil => rfl
  | cons x xs ih =>
    rw [List.foldl_cons, h x (by simp) s]
    exact ih s (fun a ha st => h a (by simp [ha]) st)

/-- C5 counterexample: the straight horizontal path
`(0,0),(10,0),(20,0),(30,0),(40,0)` — derived segment lengths
`[10,10,10,10]` (each `sqrt(10²+0²) = 10` exactly) and bearings
`[0,0,0,0]` (`atan2(0,10) = 0` exactly) — has total length `40 ≥ 1.2·10`,
yet the selected segment is the centred window `(1, 3)`, not the full path
`(0, 4)`:  the scan records every shortest window reaching `1.2×width` and
the midmost one wins (here a unique strict minimiser, so the Python dict
enumeration order cannot change the result). -/
theorem optimal_segment_not_full_counterexample :
    linestring_text_optimal_segment [10, 10, 10, 10] [0, 0, 0, 0] 10 (9/2) =
      some (1, 3) ∧ ((1, 3) : Nat × Nat) ≠ (0, 4) :=
  ⟨by decide, by decide⟩

theorem findEndOffset_ne_last (target : ℚ) :
    ∀ (l : List ℚ) (cur : ℚ) (i : Nat), (∀ s ∈ l, 0 ≤ s) → cur < target →
      target ≤ cur + l.dropLast.sum →
      findEndOffset target l cur i ≠ some (i + l.length) := by
  intro l
  induction l with
  | nil =>
    intro cur i _ _ _
    simp [findEndOffset]
  | cons s rest ih =>
    intro cur i hpos hlt hge
    cases rest with
    | nil =>
      exact absurd (by simpa using hge) (not_le.mpr hlt)
    | cons r rest' =>
      by_cases hc : cur + s ≥ target
      · rw [show findEndOffset target (s :: r :: rest') cur i =
              (if cur + s ≥ target then some (i + 1)
               else findEndOffset target (r :: rest') (cur + s) (i + 1)) from rfl,
            if_pos hc]
        intro h
        have h2 := Option.some.inj h
        simp only [List.length_cons] at h2
        omega
      · rw [show findEndOffset target (s :: r :: rest') cur i =
              (if cur + s ≥ target then some (i + 1)
               else findEndOffset target (r :: rest') (cur + s) (i + 1)) from rfl,
            if_neg hc]
        have hlt' : cur + s < target := lt_of_not_ge hc
        have hge' : target ≤ (cur + s) + (r :: rest').dropLast.sum := by
          have hd : (s :: r :: rest').dropLast = s :: (r :: rest').dropLast := rfl
          rw [hd, List.sum_cons] at hge
          linarith
        have hne := ih (cur + s) (i + 1) (fun a ha => hpos a (by simp [ha])) hlt' hge'
        intro h
        apply hne
        rw [h]
        congr 1
        simp only [List.length_cons]
        omega

theorem radSumsStep_mem (seg_lens rads : List ℚ) (width : ℚ)
    (acc : List ((Nat × Nat) × ℚ) × ℚ) (a : Nat)
    (q : (Nat × Nat) × ℚ) (hq : q ∈ (radSumsStep seg_lens rads width acc a).1) :
    q ∈ acc.1 ∨ ∃ off, findEndOffset (width * (12/10)) (seg_lens.drop a) 0 0 =
      some off ∧ q.1 = (a, a + off) := by
  unfold radSumsStep at hq
  cases hfe : findEndOffset (width * (12/10)) (seg_lens.drop a) 0 0 with
  | none =>
    rw [hfe] at hq
    exact Or.inl hq
  | some off =>
    rw [hfe] at hq
    simp only at hq
    split_ifs at hq with h1 h2
    · simp only [List.mem_singleton] at hq
      subst hq
      exact Or.inr ⟨off, rfl, rfl⟩
    · rcases List.mem_append.mp hq with hq | hq
      · exact Or.inl hq
      · simp only [List.mem_singleton] at hq
        subst hq
        exact Or.inr ⟨off, rfl, rfl⟩
    · exact Or.inl hq

theorem radSumsFold_mem (seg_lens rads : List ℚ) (width : ℚ) :
    ∀ (l : List Nat) (acc : List ((Nat × Nat) × ℚ) × ℚ),
      (∀ q ∈ acc.1, ∃ off, findEndOffset (width * (12/10)) (seg_lens.drop q.1.1) 0 0 =
        some off ∧ q.1.2 = q.1.1 + off) →
      ∀ q ∈ (l.foldl (radSumsStep seg_lens rads width) acc).1,
        ∃ off, findEndOffset (width * (12/10)) (seg_lens.drop q.1.1) 0 0 =
          some off ∧ q.1.2 = q.1.1 + off := by
  intro l
  induction l with
  | nil => intro acc hacc q hq; exact hacc q hq
  | cons a t ih =>
    intro acc hacc q hq
    rw [List.foldl_cons] at hq
    refine ih (radSumsStep seg_lens rads width acc a) ?_ q hq
    intro r hr
    rcases radSumsStep_mem seg_lens rads width acc a r hr with hr | ⟨off, hfe, hpair⟩
    · exact hacc r hr
    · rw [hpair]
      exact ⟨off, hfe, rfl⟩

theorem midmostFold_mem (seg_lens : List ℚ) :
    ∀ (l : List ((Nat × Nat) × ℚ)) (acc : ℚ × Option (Nat × Nat)) (p : Nat × Nat),
      (l.foldl (midmostStep seg_lens) acc).2 = some p →
      acc.2 = some p ∨ ∃ rad, (p, rad) ∈ l := by
  intro l
  induction l with
  | nil => intro acc p h; exact Or.inl h
  | cons se t ih =>
    intro acc p h
    rw [List.foldl_cons] at h
    rcases ih (midmostStep seg_lens acc se) p h with h1 | ⟨rad, hrad⟩
    · unfold midmostStep at h1
      simp only at h1
      split_ifs at h1
      · have hp := Option.some.inj h1
        refine Or.inr ⟨se.2, ?_⟩
        rw [← hp, Prod.mk.eta]
        exact List.mem_cons_self se t
      · exact Or.inl h1
    · exact Or.inr ⟨rad, List.mem_cons_of_mem se hrad⟩

/-- C5 (amended): for a straight path (all bearings equal, so bend cost
zero) whose total length is at least `1.2×` the text width,
`linestring_text_optimal_segment` selects the full path — from the first
point through the last — whenever the path minus its first segment and the
path minus its last segment are both shorter than `1.2×` the width; and
(for positive width) the full path can be selected only when the path minus
its last segment is shorter than `1.2×` the width, since otherwise the
window starting at the first point closes strictly before the last point
and the full path is never among the recorded candidates. -/
theorem optimal_segment_full_path (seg_lens rads : List ℚ) (width : ℚ)
    (hne : seg_lens ≠ [])
    (hpos : ∀ s ∈ seg_lens, 0 ≤ s)
    (hstraight : ∀ rr ∈ iter_pairs rads, rr.1 = rr.2)
    (htotal : width * (12/10) ≤ seg_lens.sum) :
    ((seg_lens.dropLast).sum < width * (12/10) →
      (seg_lens.drop 1).sum < width * (12/10) →
      linestring_text_optimal_segment seg_lens rads width (9/2) =
        some (0, seg_lens.length)) ∧
    (0 < width → width * (12/10) ≤ (seg_lens.dropLast).sum →
      linestring_text_optimal_segment seg_lens rads width (9/2) ≠
        some (0, seg_lens.length)) := by
  constructor
  · intro hbutlast hbutfirst
    obtain ⟨m, hm⟩ : ∃ m, seg_lens.length = m + 1 := by
      cases hl : seg_lens.length with
      | zero => exact absurd (List.length_eq_zero.mp hl) hne
      | succ m => exact ⟨m, rfl⟩
    have he := findEndOffset_eq_length (width * (12/10)) seg_lens 0 0 hne hpos
      (by simpa using hbutlast) (by simpa using htotal)
    have hz : (pySlice (rad_diffs rads) 1 seg_lens.length).sum = 0 :=
      slice_sum_zero _ (rad_diffs_all_zero rads hstraight) 1 _
    have h0 : radSumsStep seg_lens rads width ([], 9/2) 0 =
        ([((0, seg_lens.length), 0)], 0) := by
      simp only [radSumsStep, List.drop_zero, he, Nat.zero_add, hz]
      norm_num
    have hstep : ∀ a ∈ (List.range m).map Nat.succ,
        ∀ st, radSumsStep seg_lens rads width st a = st := by
      intro a ha st
      obtain ⟨j, _, rfl⟩ := List.mem_map.mp ha
      have hd : (seg_lens.drop (Nat.succ j)).sum < width * (12/10) := by
        have hle := sum_drop_le_sum (seg_lens.drop 1)
          (fun s hs => hpos s (List.drop_subset 1 seg_lens hs)) j
        rw [List.drop_drop] at hle
        have h1j : 1 + j = Nat.succ j := by omega
        rw [h1j] at hle
        linarith
      have hn := findEndOffset_short (width * (12/10)) (seg_lens.drop (Nat.succ j)) 0 0
        (fun s hs => hpos s (List.drop_subset _ seg_lens hs)) (by simpa using hd)
      simp only [radSumsStep, hn]
    have hfold : radSumsFold seg_lens rads width (9/2) =
        ([((0, seg_lens.length), 0)], 0) := by
      unfold radSumsFold
      nth_rewrite 1 [hm]
      rw [List.range_succ_eq_map, List.foldl_cons, h0]
      exact foldl_id_of_step _ _ _ hstep
    unfold linestring_text_optimal_segment
    rw [hfold]
    unfold midmostFold
    simp only [List.foldl_cons, List.foldl_nil, midmostStep, List.take_zero,
      List.drop_length, List.sum_nil]
    norm_num
  · intro hw hwide h
    unfold linestring_text_optimal_segment midmostFold at h
    rcases midmostFold_mem seg_lens _ _ _ h with h1 | ⟨rad, hmem⟩
    · exact Option.noConfusion h1
    · unfold radSumsFold at hmem
      obtain ⟨off, hfe, hoff⟩ := radSumsFold_mem seg_lens rads width _ _
        (by intro q hq; exact absurd hq (List.not_mem_nil q))
        ((0, seg_lens.length), rad) hmem
      simp only at hfe hoff
      rw [List.drop_zero] at hfe
      have hlast := findEndOffset_ne_last (width * (12/10)) seg_lens 0 0 hpos
        (by positivity) (by simpa using hwide)
      apply hlast
      rw [hfe]
      congr 1
      omega

/-- Witness for C5 (amended), exercising both directions: the two-point
straight path of length 30 with text width 10 selects the full path, and
the straight path with segment lengths `[10,10,10,10]` (whose path minus
the last segment, 30, already reaches `12`) never selects the full path. -/
theorem optimal_segment_full_path_witness :
    linestring_text_optimal_segment [30] [5] 10 (9/2) = some (0, 1) ∧
    linestring_text_optimal_segment [10, 10, 10, 10] [0, 0, 0, 0] 10 (9/2) ≠
      some (0, 4) :=
  ⟨(optimal_segment_full_path [30] [5] 10 (by simp)
      (by intro s hs; simp only [List.mem_singleton] at hs; subst hs; norm_num)
      (by intro rr hrr; simp [iter_pairs] at hrr)
      (by norm_num)).1
    (by norm_num [List.dropLast])
    (by norm_num),
   (optimal_segment_full_path [10, 10, 10, 10] [0, 0, 0, 0] 10
      (by simp)
      (by intro s hs; simp only [List.mem_cons, List.not_mem_nil, or_false] at hs
          rcases hs with rfl | rfl | rfl | rfl <;> norm_num)
      (by intro rr hrr
          simp only [iter_pairs, List.zip, List.tail, List.zipWith, List.mem_cons,
            List.not_mem_nil, or_false] at hrr
          rcases hrr with rfl | rfl | rfl <;> rfl)
      (by norm_num)).2
    (by norm_num)
    (by norm_num [List.dropLast])⟩

/-- C4 counterexample: on the 100-unit horizontal line with glyphs
`threeChars`, the second glyph exhausts its entire 30-attempt budget (its
cursor is pinned past the end of the line, at distance `97.2 ≤ 100` from
the first glyph) — yet the emitted sequence contains **two** glyphs: the
first *and the third*.  Layout does not stop at the failed glyph; the
remaining glyph is still attempted and accepted, refuting the claim that
every glyph after the failed one is dropped. -/
theorem glyph_budget_continue_counterexample :
    (place_char_attempts (axisOps 100) charSeg 1 100 (17/20) 30 (53/20 + 100)
        [[(9/5, 0), (14/5, 0)]]).1 = none ∧
    iter_chars_on_line (axisOps 100) threeChars 1 (17/20) =
      [[[(9/5, 0), (14/5, 0)]], [[(100, 0), (101, 0)]]] :=
  ⟨by decide, by decide⟩

/-- C4 (amended): when the 30-attempt budget is exhausted for some glyph,
only that glyph is dropped: the generator continues with the remaining
glyphs from the advanced cursor, against the unchanged accepted-glyph
geometry (so glyphs already yielded remain in the output, and later glyphs
may still be emitted); no error is raised. -/
theorem glyph_budget_skips (G : CharPlaceOps) (char : Geom)
    (width spacing step curLen : ℚ) (rest : List (Geom × ℚ × ℚ))
    (textGeom : Geom)
    (h : (place_char_attempts G char width spacing step 30 (curLen + spacing)
        textGeom).1 = none) :
    iter_chars_from G step ((char, width, spacing) :: rest) curLen textGeom =
      iter_chars_from G step rest
        (place_char_attempts G char width spacing step 30 (curLen + spacing)
          textGeom).2 textGeom := by
  simp only [iter_chars_from]
  rw [h]

/-- Witness for C4 (amended), at the failing middle glyph of the
counterexample's run. -/
theorem glyph_budget_skips_witness :
    iter_chars_from (axisOps 100) (17/20)
        [(charSeg, 1, 100), (charSeg, 1, 4/5)] (53/20) [[(9/5, 0), (14/5, 0)]] =
      iter_chars_from (axisOps 100) (17/20) [(charSeg, 1, 4/5)]
        (place_char_attempts (axisOps 100) charSeg 1 100 (17/20) 30 (53/20 + 100)
          [[(9/5, 0), (14/5, 0)]]).2 [[(9/5, 0), (14/5, 0)]] :=
  glyph_budget_skips (axisOps 100) charSeg 1 100 (17/20) (53/20)
    [(charSeg, 1, 4/5)] [[(9/5, 0), (14/5, 0)]] (by decide)

/-- C9: a non-ring merged fragment whose intersection with the canvas
boundary is an odd number of points is discarded (it contributes no pieces
to the closing process), and a fragment contributes pieces only when its
distinct boundary-point count is positive and even (the
`geom_type == 'MultiPoint' and len % 2 == 0` test of utils.py 332). -/
theorem coastline_odd_discarded (l : List Pt) (b : Rect)
    (_hnr : isRing l = false) :
    ((boundaryInter l b).2.length % 2 = 1 → coastContribution b l = []) ∧
    (coastContribution b l ≠ [] →
      0 < (boundaryInter l b).2.length ∧ (boundaryInter l b).2.length % 2 = 0) := by
  constructor
  · intro hodd
    unfold coastContribution
    rw [if_neg]
    intro hadm
    simp only [coastAdmit, Bool.and_eq_true, decide_eq_true_eq,
      Bool.not_eq_true'] at hadm
    omega
  · intro hne
    by_cases hadm : coastAdmit l b = true
    · simp only [coastAdmit, Bool.and_eq_true, decide_eq_true_eq,
        Bool.not_eq_true'] at hadm
      exact ⟨by omega, hadm.2.2⟩
    · exfalso
      apply hne
      unfold coastContribution
      rw [if_neg hadm]

/-- Witness for C9: the line `(5,5)-(15,5)` crosses the boundary of
`coastBox` exactly once (odd), and contributes nothing. -/
theorem coastline_odd_discarded_witness :
    isRing oddCrossLine = false ∧
    (boundaryInter oddCrossLine coastBox).2.length % 2 = 1 ∧
    coastContribution coastBox oddCrossLine = [] :=
  ⟨by decide, by decide,
   (coastline_odd_discarded oddCrossLine coastBox (by decide)).1 (by decide)⟩

/-- C10 counterexample: the figure-eight line is closed (first and last
coordinates coincide) but self-crossing, so shapely's `is_ring`
(closed **and** simple) rejects it; it is then fed to the boundary filter,
has no boundary intersection points, and is discarded entirely:
`close_coastlines` yields nothing, not the line unchanged. -/
theorem closed_line_not_yielded_counterexample :
    figureEight.head? = figureEight.getLast? ∧
    close_coastlines [figureEight] coastBox 1 1 = some [] ∧
    ∀ out, close_coastlines [figureEight] coastBox 1 1 = some out →
      figureEight ∉ out := by
  refine ⟨by decide, by decide, ?_⟩
  intro out h
  have h0 : close_coastlines [figureEight] coastBox 1 1 = some [] := by decide
  rw [h0] at h
  obtain rfl : ([] : List (List Pt)) = out := Option.some.inj h
  simp

theorem clipFilter_spec (merged : List (List Pt)) (b : Rect) :
    clipFilter merged b =
      (merged.filter (fun x => isRing x),
       (merged.filter (fun x => !(isRing x))).flatMap (coastContribution b)) := by
  have haux : ∀ (ms : List (List Pt)) (acc : List (List Pt) × List (List Pt)),
      ms.foldl
        (fun st line =>
          if isRing line then (st.1 ++ [line], st.2)
          else (st.1, st.2 ++ coastContribution b line)) acc =
      (acc.1 ++ ms.filter (fun x => isRing x),
       acc.2 ++ (ms.filter (fun x => !(isRing x))).flatMap (coastContribution b)) := by
    intro ms
    induction ms with
    | nil => intro acc; simp
    | cons l t ih =>
      intro acc
      by_cases hl : isRing l = true
      · rw [List.foldl_cons, if_pos hl, ih]
        simp [List.filter_cons, hl]
      · rw [List.foldl_cons, if_neg hl, ih]
        simp only [Bool.not_eq_true] at hl
        simp [List.filter_cons, hl]
  have h := haux merged ([], [])
  simpa [clipFilter] using h

/-- C10 (amended): every merged line that is already a ring in shapely's
sense (`is_ring`: closed **and** simple) is routed to the immediate yields:
it appears unchanged among the pre-walk rings, the closing-process list is
built only from the non-ring lines, and whenever `close_coastlines`
completes, its output is the pre-walk rings (containing the line) followed
by the stitched rings. -/
theorem ring_yielded_unchanged (merged : List (List Pt)) (b : Rect)
    (l : List Pt) (hm : l ∈ merged) (hr : isRing l = true) :
    l ∈ (clipFilter merged b).1 ∧
    (clipFilter merged b).2 =
      (merged.filter (fun x => !(isRing x))).flatMap (coastContribution b) ∧
    ∀ f g out, close_coastlines merged b f g = some out →
      ∃ tail, out = (clipFilter merged b).1 ++ tail ∧ l ∈ out := by
  have hcf := clipFilter_spec merged b
  have hmem : l ∈ (clipFilter merged b).1 := by
    rw [hcf]
    exact List.mem_filter.mpr ⟨hm, hr⟩
  refine ⟨hmem, by rw [hcf], ?_⟩
  intro f g out h
  unfold close_coastlines at h
  obtain ⟨areas, _, hout⟩ := Option.map_eq_some'.mp h
  refine ⟨areas.map closeRing, hout.symm, ?_⟩
  rw [← hout]
  exact List.mem_append_left _ hmem

/-- Witness for C10 (amended): the square ring among a non-ring line. -/
theorem ring_yielded_unchanged_witness :
    squareRing ∈ (clipFilter [squareRing, oddCrossLine] coastBox).1 ∧
    (clipFilter [squareRing, oddCrossLine] coastBox).2 =
      ([squareRing, oddCrossLine].filter (fun x => !(isRing x))).flatMap
        (coastContribution coastBox) ∧
    ∀ f g out, close_coastlines [squareRing, oddCrossLine] coastBox f g = some out →
      ∃ tail, out = (clipFilter [squareRing, oddCrossLine] coastBox).1 ++ tail ∧
        squareRing ∈ out :=
  ring_yielded_unchanged [squareRing, oddCrossLine] coastBox squareRing
    (List.mem_cons_self _ _) (by decide)

theorem coastInv_mk (a : List Pt) (pe : Pt) (bl : List (Pt × Pt))
    (ln : List (List Pt)) :
    coastInv ⟨a, pe, bl, ln⟩ = coastInv ⟨[], pe, bl, ln⟩ := rfl

theorem coastWalk_diverges (g : Nat) : ∀ (st : WalkSt), coastInv st = true →
    walkLoop coastCen (10, 4) g st = none := by
  induction g with
  | zero => intro st _; rfl
  | succ n ih =>
    intro st h
    obtain ⟨a, pe, bl, ln⟩ := st
    simp only [coastInv, decide_eq_true_eq] at h
    obtain ⟨rfl, hmem⟩ := h
    simp only [coastCtrl, List.mem_cons, List.not_mem_nil, or_false] at hmem
    rcases hmem with hc | hc | hc | hc | hc | hc <;>
      (injection hc with h1 h2; subst h1; subst h2)
    · have hfind : ([eT, eR, eB, eL].find?
          (fun e => segHasPt e ((10 : ℚ), (2 : ℚ)))) = some eR := by decide
      have hneg : ¬(segHasPt eR ((10 : ℚ), (4 : ℚ)) = true ∧
          radLeDir (dirOf coastCen ((10 : ℚ), (4 : ℚ)))
            (dirOf coastCen ((10 : ℚ), (2 : ℚ))) = true) := by decide
      simp only [walkLoop, walkStep, hfind, Option.getD_some, List.findIdx?_nil,
        Option.isSome_none, hneg, if_false, Bool.false_eq_true, ite_false]
      exact ih _ (by rw [coastInv_mk]; decide)
    · have hfind : ([eR, eB, eL, eT].find?
          (fun e => segHasPt e ((10 : ℚ), (0 : ℚ)))) = some eR := by decide
      have hneg : ¬(segHasPt eR ((10 : ℚ), (4 : ℚ)) = true ∧
          radLeDir (dirOf coastCen ((10 : ℚ), (4 : ℚ)))
            (dirOf coastCen ((10 : ℚ), (0 : ℚ))) = true) := by decide
      simp only [walkLoop, walkStep, hfind, Option.getD_some, List.findIdx?_nil,
        Option.isSome_none, hneg, if_false, Bool.false_eq_true, ite_false]
      exact ih _ (by rw [coastInv_mk]; decide)
    · have hfind : ([eB, eL, eT, eR].find?
          (fun e => segHasPt e ((10 : ℚ), (0 : ℚ)))) = some eB := by decide
      have hneg : ¬(segHasPt eB ((10 : ℚ), (4 : ℚ)) = true ∧
          radLeDir (dirOf coastCen ((10 : ℚ), (4 : ℚ)))
            (dirOf coastCen ((10 : ℚ), (0 : ℚ))) = true) := by decide
      simp only [walkLoop, walkStep, hfind, Option.getD_some, List.findIdx?_nil,
        Option.isSome_none, hneg, if_false, Bool.false_eq_true, ite_false]
      exact ih _ (by rw [coastInv_mk]; decide)
    · have hfind : ([eL, eT, eR, eB].find?
          (fun e => segHasPt e ((0 : ℚ), (0 : ℚ)))) = some eL := by decide
      have hneg : ¬(segHasPt eL ((10 : ℚ), (4 : ℚ)) = true ∧
          radLeDir (dirOf coastCen ((10 : ℚ), (4 : ℚ)))
            (dirOf coastCen ((0 : ℚ), (0 : ℚ))) = true) := by decide
      simp only [walkLoop, walkStep, hfind, Option.getD_some, List.findIdx?_nil,
        Option.isSome_none, hneg, if_false, Bool.false_eq_true, ite_false]
      exact ih _ (by rw [coastInv_mk]; decide)
    · have hfind : ([eT, eR, eB, eL].find?
          (fun e => segHasPt e ((0 : ℚ), (10 : ℚ)))) = some eT := by decide
      have hneg : ¬(segHasPt eT ((10 : ℚ), (4 : ℚ)) = true ∧
          radLeDir (dirOf coastCen ((10 : ℚ), (4 : ℚ)))
            (dirOf coastCen ((0 : ℚ), (10 : ℚ))) = true) := by decide
      simp only [walkLoop, walkStep, hfind, Option.getD_some, List.findIdx?_nil,
        Option.isSome_none, hneg, if_false, Bool.false_eq_true, ite_false]
      exact ih _ (by rw [coastInv_mk]; decide)
    · have hfind : ([eR, eB, eL, eT].find?
          (fun e => segHasPt e ((10 : ℚ), (10 : ℚ)))) = some eR := by decide
      have hneg : ¬(segHasPt eR ((10 : ℚ), (4 : ℚ)) = true ∧
          radLeDir (dirOf coastCen ((10 : ℚ), (4 : ℚ)))
            (dirOf coastCen ((10 : ℚ), (10 : ℚ))) = true) := by decide
      simp only [walkLoop, walkStep, hfind, Option.getD_some, List.findIdx?_nil,
        Option.isSome_none, hneg, if_false, Bool.false_eq_true, ite_false]
      exact ih _ (by rw [coastInv_mk]; decide)

/-- C1: the boundary walk of `close_coastlines` has **no** per-ring bound
and does not drop an unclosable ring: on the single admissible merged
fragment `coastFrag` (an even, two-point boundary intersection, entering
and leaving on the right canvas edge below the centroid) the ring's stop
condition `endrad <= prevrad` is false at every boundary-edge advance, the
walk enters the four-corner cycle `c₃→c₄→c₅→c₆→c₃` of `coastCtrl`, and the
fuelled embedding returns `none` at **every** fuel: the source's `while
True` loop (utils.py 367-391) appends boundary corners forever. -/
theorem close_coastlines_nonterminating :
    ∀ outerFuel innerFuel : Nat,
      close_coastlines [coastFrag] coastBox outerFuel innerFuel = none := by
  intro f g
  have hcf : clipFilter [coastFrag] coastBox = ([], [coastFrag]) := by decide
  simp only [close_coastlines, hcf]
  cases f with
  | zero => rfl
  | succ f =>
    have hsort : sortLinesDesc
        ((coastBox.minx + coastBox.maxx) / 2, (coastBox.miny + coastBox.maxy) / 2)
        [coastFrag] = [coastFrag] := by decide
    rw [hsort]
    simp only [outerWalk]
    have hwl : walkLoop
        ((coastBox.minx + coastBox.maxx) / 2, (coastBox.miny + coastBox.maxy) / 2)
        (([coastFrag].getLastD []).getLastD (0, 0)) g
        { area := ([coastFrag].getLastD []).reverse,
          prevend := ([coastFrag].getLastD []).headD (0, 0),
          blines := bboxEdges coastBox, lines := [coastFrag].dropLast } = none :=
      coastWalk_diverges g _ (by decide)
    rw [hwl]
    rfl
